import Mathlib

/-!
Verification of the job_analyzer backend (ETL pipeline, persistence gateway,
salary aggregation, and ML inference adapters) against its specification.

Python values are modelled shallowly: a Python `str` is a list of Unicode code
points (`PyStr := List Nat`), a loosely-typed value is `PyVal`
(None / str / int / dict / list), a raw job record is a `PyDict`
(an association list of string keys to values, first binding wins as in a
Python dict), and fallible code returns `Except PyErr`.
-/

namespace JobAnalyzer

/-- A Python string, as its sequence of Unicode code points. -/
abbrev PyStr := List Nat

/-- Code points of a Lean string literal, used to transcribe Python literals. -/
def pystr (s : String) : PyStr :=
  s.data.map Char.toNat

/-- ASCII lower-casing of one code point, modelling `str.lower` per character. -/
def pyLowerChar (c : Nat) : Nat :=
  if 65 ≤ c ∧ c ≤ 90 then c + 32 else c

/-- ASCII upper-casing of one code point, modelling `str.upper` per character. -/
def pyUpperChar (c : Nat) : Nat :=
  if 97 ≤ c ∧ c ≤ 122 then c - 32 else c

/-- `str.lower`. -/
def pyLower (s : PyStr) : PyStr := s.map pyLowerChar

/-- `str.upper`. -/
def pyUpper (s : PyStr) : PyStr := s.map pyUpperChar

/-- A loosely-typed Python value, covering the shapes this codebase handles:
`None`, strings, ints, dicts and lists. -/
inductive PyVal where
  | none : PyVal
  | str (s : PyStr) : PyVal
  | int (n : Int) : PyVal
  | dict (entries : List (PyStr × PyVal)) : PyVal
  | list (elems : List PyVal) : PyVal

/-- A raw record: a Python dict with string keys (first binding wins). -/
abbrev PyDict := List (PyStr × PyVal)

/-- Python truthiness: `None`, `0`, `""`, `[]` and an empty dict are falsy. -/
def truthy : PyVal → Bool
  | PyVal.none => false
  | PyVal.str s => !s.isEmpty
  | PyVal.int n => decide (n ≠ 0)
  | PyVal.dict d => !d.isEmpty
  | PyVal.list l => !l.isEmpty

/-- `d.get(k)`: value of the first binding of `k`, if any. -/
def dictGet (d : PyDict) (k : PyStr) : Option PyVal :=
  (d.find? (fun kv => kv.1 == k)).map (·.2)

/-- `d.get(k, default)`. -/
def dictGetD (d : PyDict) (k : PyStr) (default : PyVal) : PyVal :=
  (dictGet d k).getD default

/-- Errors a Python expression can raise in the modelled fragment. -/
inductive PyErr where
  | typeError : PyErr
  | valueError : PyErr

/-- Result of `etl.standardize_salary`: the dict
`{salary_min, salary_max, salary_avg}`. -/
structure SalaryData where
  salary_min : Int
  salary_max : Int
  salary_avg : Int
deriving DecidableEq, Repr

/-- `(salary_min + salary_max) // 2 if (salary_min and salary_max) else
(salary_min or salary_max)`: floor division of the sum when both operands are
truthy (nonzero), otherwise Python `or` yields the first nonzero operand. -/
def salaryAvg (mn mx : Int) : Int :=
  if mn ≠ 0 ∧ mx ≠ 0 then Int.fdiv (mn + mx) 2
  else if mn ≠ 0 then mn else mx

/-- `etl.standardize_salary` on integer-or-`None` inputs (the shapes the claims
quantify over).  `if not salary_min: salary_min = 0` maps `None` (and `0`) to
`0`; the swap fires only when `salary_min > salary_max and salary_max > 0`;
the average is computed after the (possible) swap. -/
def standardize_salary (smin smax : Option Int) : SalaryData :=
  let mn0 : Int := smin.getD 0
  let mx0 : Int := smax.getD 0
  if mn0 > mx0 ∧ mx0 > 0 then
    { salary_min := mx0, salary_max := mn0, salary_avg := salaryAvg mx0 mn0 }
  else
    { salary_min := mn0, salary_max := mx0, salary_avg := salaryAvg mn0 mx0 }

/-- C1 counterexample input: min 5, max 0 — the swap guard `salary_max > 0`
blocks the swap, so the output is inverted. -/
theorem standardize_salary_not_ordered :
    ¬ ((standardize_salary (some 5) (some 0)).salary_min ≤
       (standardize_salary (some 5) (some 0)).salary_max) := by
  decide

/-- C1 (amended): the standardized record satisfies `salary_min ≤ salary_max`
whenever the max input (with absent mapped to 0) is positive, or the
normalized inputs are already ordered; when the max input is absent or zero
and the min input positive, the source values are kept unswapped. -/
theorem standardize_salary_ordered (smin smax : Option Int)
    (h : 0 < smax.getD 0 ∨ smin.getD 0 ≤ smax.getD 0) :
    (standardize_salary smin smax).salary_min ≤
      (standardize_salary smin smax).salary_max := by
  simp only [standardize_salary]
  split
  next hc => dsimp only; omega
  next hc => dsimp only; omega

/-- C1 witness: a concrete inverted pair with positive max is swapped back
into order. -/
theorem standardize_salary_ordered_witness :
    (standardize_salary (some 100000) (some 50000)).salary_min ≤
      (standardize_salary (some 100000) (some 50000)).salary_max :=
  standardize_salary_ordered (some 100000) (some 50000) (Or.inl (by decide))

/-- C5: `salary_avg` is the floor of `(min+max)/2` when both normalized inputs
are nonzero, the nonzero one when exactly one is, and 0 when both are absent
or zero (the swap preserves the sum, so the average is over the inputs). -/
theorem standardize_salary_avg (smin smax : Option Int) :
    (smin.getD 0 ≠ 0 ∧ smax.getD 0 ≠ 0 →
      (standardize_salary smin smax).salary_avg =
        Int.fdiv (smin.getD 0 + smax.getD 0) 2) ∧
    (smin.getD 0 ≠ 0 ∧ smax.getD 0 = 0 →
      (standardize_salary smin smax).salary_avg = smin.getD 0) ∧
    (smin.getD 0 = 0 ∧ smax.getD 0 ≠ 0 →
      (standardize_salary smin smax).salary_avg = smax.getD 0) ∧
    (smin.getD 0 = 0 ∧ smax.getD 0 = 0 →
      (standardize_salary smin smax).salary_avg = 0) := by
  refine ⟨fun h => ?_, fun h => ?_, fun h => ?_, fun h => ?_⟩ <;>
    simp only [standardize_salary] <;> split <;> dsimp only <;>
    simp only [salaryAvg]
  · rw [if_pos ⟨h.2, h.1⟩, Int.add_comm]
  · rw [if_pos h]
  · omega
  · rw [if_neg (by omega), if_pos h.1]
  · omega
  · rw [if_neg (by omega), if_neg (by omega)]
  · omega
  · rw [if_neg (by omega), if_neg (by omega)]
    exact h.2

/-- C5 witness: both bounds present, `avg (90000, 110000) = 100000`. -/
theorem standardize_salary_avg_witness :
    (standardize_salary (some 90000) (some 110000)).salary_avg =
      Int.fdiv ((90000 : Int) + 110000) 2 :=
  (standardize_salary_avg (some 90000) (some 110000)).1 (by decide)

/-- Python `==` as the `seen_ids` set-membership of `etl.remove_duplicates`
uses it.  Only hashable ids ever reach this comparison (an unhashable id
raises `TypeError` before the set is consulted, see `removeDupsGo`), so only
the scalar cases are exercised; values of distinct scalar types compare
unequal, as in Python for the types involved. -/
def pyBeq : PyVal → PyVal → Bool
  | PyVal.none, PyVal.none => true
  | PyVal.str s, PyVal.str t => decide (s = t)
  | PyVal.int a, PyVal.int b => decide (a = b)
  | _, _ => false

theorem pyBeq_symm (a b : PyVal) : pyBeq a b = pyBeq b a := by
  cases a <;> cases b <;> simp [pyBeq, eq_comm]

/-- `job_id in seen_ids`. -/
def pyMem (v : PyVal) (seen : List PyVal) : Bool :=
  seen.any (fun w => pyBeq v w)

/-- Python hashability for the modelled values: dicts and lists are
unhashable, so using one as a set element raises `TypeError`. -/
def hashable : PyVal → Bool
  | PyVal.dict _ => false
  | PyVal.list _ => false
  | _ => true

/-- `job.get('id')` with Python's `None` default. -/
def jobId (job : PyDict) : PyVal :=
  dictGetD job (pystr "id") PyVal.none

/-- The loop of `etl.remove_duplicates`: `if job_id and job_id not in
seen_ids` keeps the first occurrence of each truthy id; falsy ids
short-circuit and are dropped; the membership test (and `seen_ids.add`)
hashes the id, raising `TypeError` on an unhashable one. -/
def removeDupsGo (seen : List PyVal) : List PyDict → Except PyErr (List PyDict)
  | [] => Except.ok []
  | job :: rest =>
    let job_id := jobId job
    if truthy job_id then
      if hashable job_id then
        if pyMem job_id seen then removeDupsGo seen rest
        else (removeDupsGo (job_id :: seen) rest).map (fun out => job :: out)
      else Except.error PyErr.typeError
    else removeDupsGo seen rest

/-- `etl.remove_duplicates`. -/
def remove_duplicates (jobs : List PyDict) : Except PyErr (List PyDict) :=
  removeDupsGo [] jobs

/-- A record's id in the spec's view: `some s` iff the id field is a
non-empty string. -/
def jid (job : PyDict) : Option PyStr :=
  match jobId job with
  | PyVal.str s => if s.isEmpty then Option.none else some s
  | _ => Option.none

/-- The record's id field is absent, `None`, or a string (the data model's
typing `id: string`). -/
def idOkB (job : PyDict) : Bool :=
  match jobId job with
  | PyVal.none => true
  | PyVal.str _ => true
  | _ => false

/-- Modelled from the spec's words (§4.3), for comparison with
`remove_duplicates`: keep the first occurrence of each distinct non-empty id,
drop every later record carrying that id and every record with an empty or
missing id, preserving relative order. -/
def dedup_spec : List PyDict → List PyDict
  | [] => []
  | j :: rest =>
    match jid j with
    | Option.none => dedup_spec rest
    | some s => j :: dedup_spec (rest.filter (fun j2 => decide (jid j2 ≠ some s)))
termination_by l => l.length
decreasing_by
  all_goals simp
  have := List.length_filter_le (fun j2 => !decide (jid j2 = some s)) rest
  omega

/-- Whether a record's (string) id avoids the ids already seen. -/
def keepB (seen : List PyStr) (job : PyDict) : Bool :=
  match jid job with
  | some s => !(decide (s ∈ seen))
  | Option.none => true

theorem pyMem_str_map (s : PyStr) (seen : List PyStr) :
    pyMem (PyVal.str s) (seen.map PyVal.str) = decide (s ∈ seen) := by
  induction seen with
  | nil => simp [pyMem]
  | cons t ts ih =>
    simp only [List.map_cons, pyMem, List.any_cons, pyBeq] at ih ⊢
    rw [ih]
    by_cases h1 : s = t <;> by_cases h2 : s ∈ ts <;> simp [h1, h2]

theorem filter_keepB_cons (s : PyStr) (seen : List PyStr) (l : List PyDict) :
    (l.filter (keepB seen)).filter (fun j2 => decide (jid j2 ≠ some s)) =
      l.filter (keepB (s :: seen)) := by
  rw [List.filter_filter]
  apply List.filter_congr
  intro j _
  cases hj : jid j with
  | none => simp [keepB, hj]
  | some u =>
    by_cases h1 : u = s <;> by_cases h2 : u ∈ seen <;>
      simp [keepB, hj, h1, h2]

theorem removeDupsGo_eq_spec (jobs : List PyDict)
    (hids : ∀ j ∈ jobs, idOkB j = true) (seen : List PyStr) :
    removeDupsGo (seen.map PyVal.str) jobs =
      Except.ok (dedup_spec (jobs.filter (keepB seen))) := by
  induction jobs generalizing seen with
  | nil => simp [removeDupsGo, dedup_spec]
  | cons j rest ih =>
    have hj := hids j (List.mem_cons_self _ _)
    have hrest : ∀ j2 ∈ rest, idOkB j2 = true :=
      fun j2 h2 => hids j2 (List.mem_cons_of_mem _ h2)
    simp only [removeDupsGo, List.filter_cons]
    cases hjv : jobId j with
    | str s =>
      by_cases hse : s.isEmpty
      · -- empty string id: falsy, dropped by the loop; `jid` is `none`,
        -- so the spec function drops it as well
        have hjid : jid j = Option.none := by simp [jid, hjv, hse]
        have ht : truthy (PyVal.str s) = false := by simp [truthy, hse]
        have hkeep : keepB seen j = true := by simp [keepB, hjid]
        simp only [ht, Bool.false_eq_true, if_false, hkeep, if_true,
          dedup_spec, hjid]
        exact ih hrest seen
      · have hjid : jid j = some s := by simp [jid, hjv, hse]
        have ht : truthy (PyVal.str s) = true := by simp [truthy, hse]
        by_cases hmem : s ∈ seen
        · -- id already seen: the loop skips, the spec filter drops
          have hm : pyMem (PyVal.str s) (seen.map PyVal.str) = true := by
            rw [pyMem_str_map]; simp [hmem]
          have hkeep : keepB seen j = false := by simp [keepB, hjid, hmem]
          simp only [ht, if_true, hashable, hm, hkeep, Bool.false_eq_true,
            if_false]
          exact ih hrest seen
        · -- fresh id: the loop keeps the record and adds the id to the set
          have hm : pyMem (PyVal.str s) (seen.map PyVal.str) = false := by
            rw [pyMem_str_map]; simp [hmem]
          have hkeep : keepB seen j = true := by simp [keepB, hjid, hmem]
          have hmap : PyVal.str s :: seen.map PyVal.str =
              (s :: seen).map PyVal.str := rfl
          simp only [ht, if_true, hashable, hm, Bool.false_eq_true, if_false,
            hkeep, hmap, ih hrest (s :: seen), Except.map, dedup_spec, hjid,
            filter_keepB_cons]
    | none =>
      have hjid : jid j = Option.none := by simp [jid, hjv]
      have hkeep : keepB seen j = true := by simp [keepB, hjid]
      simp only [truthy, Bool.false_eq_true, if_false, hkeep, if_true,
        dedup_spec, hjid]
      exact ih hrest seen
    | int n => simp [idOkB, hjv] at hj
    | dict d => simp [idOkB, hjv] at hj
    | list l => simp [idOkB, hjv] at hj

theorem dedup_spec_sublist (l : List PyDict) : (dedup_spec l).Sublist l := by
  induction l using dedup_spec.induct with
  | case1 => simp [dedup_spec]
  | case2 j rest hjid ih =>
    rw [dedup_spec]
    rw [hjid]
    exact ih.cons j
  | case3 j rest s hjid ih =>
    rw [dedup_spec]
    rw [hjid]
    exact (ih.trans (List.filter_sublist rest)).cons₂ j

/-- C4: on records whose id field is absent, `None` or a string (the data
model's `id: string`), `remove_duplicates` returns exactly the ordered
subsequence keeping the first occurrence of each distinct non-empty id,
dropping later records with an already-seen id and records with an empty or
missing id, preserving the relative order of the kept records. -/
theorem remove_duplicates_correct (jobs : List PyDict)
    (hids : ∀ j ∈ jobs, idOkB j = true) :
    remove_duplicates jobs = Except.ok (dedup_spec jobs) ∧
    (dedup_spec jobs).Sublist jobs := by
  constructor
  · have h := removeDupsGo_eq_spec jobs hids []
    have hfilter : jobs.filter (keepB []) = jobs :=
      List.filter_eq_self.mpr
        (fun a _ => by cases hj : jid a <;> simp [keepB, hj])
    simpa [remove_duplicates, hfilter] using h
  · exact dedup_spec_sublist jobs

/-- Example batch: a duplicated id, an empty id, a missing id, a fresh id. -/
def exJobsC4 : List PyDict :=
  [[(pystr "id", PyVal.str (pystr "a")), (pystr "title", PyVal.str (pystr "first"))],
   [(pystr "id", PyVal.str (pystr "a")), (pystr "title", PyVal.str (pystr "dup"))],
   [(pystr "id", PyVal.str (pystr ""))],
   [],
   [(pystr "id", PyVal.str (pystr "b"))]]

/-- C4 witness: the example batch has well-typed ids, and deduplication keeps
exactly the first `"a"` record and the `"b"` record, in order. -/
theorem remove_duplicates_correct_witness :
    remove_duplicates exJobsC4 = Except.ok (dedup_spec exJobsC4) ∧
    (dedup_spec exJobsC4).Sublist exJobsC4 :=
  remove_duplicates_correct exJobsC4 (by decide)

theorem removeDupsGo_sound (jobs : List PyDict) (seen : List PyVal)
    (out : List PyDict) (h : removeDupsGo seen jobs = Except.ok out) :
    (∀ j ∈ out, truthy (jobId j) = true ∧ hashable (jobId j) = true ∧
      pyMem (jobId j) seen = false) ∧
    List.Pairwise (fun a b => pyBeq (jobId b) (jobId a) = false) out := by
  induction jobs generalizing seen out with
  | nil =>
    simp only [removeDupsGo, Except.ok.injEq] at h
    subst h
    simp
  | cons j rest ih =>
    simp only [removeDupsGo] at h
    by_cases ht : truthy (jobId j)
    · rw [if_pos ht] at h
      by_cases hh : hashable (jobId j)
      · rw [if_pos hh] at h
        by_cases hm : pyMem (jobId j) seen
        · rw [if_pos hm] at h
          exact ih seen out h
        · rw [if_neg hm] at h
          cases hrec : removeDupsGo (jobId j :: seen) rest with
          | error e => rw [hrec] at h; exact absurd h (by simp [Except.map])
          | ok out' =>
            rw [hrec] at h
            simp only [Except.map, Except.ok.injEq] at h
            subst h
            obtain ⟨ih1, ih2⟩ := ih (jobId j :: seen) out' hrec
            constructor
            · intro x hx
              rcases List.mem_cons.mp hx with rfl | hx
              · exact ⟨ht, hh, by simpa using hm⟩
              · obtain ⟨hx1, hx2, hx3⟩ := ih1 x hx
                simp only [pyMem, List.any_cons, Bool.or_eq_false_iff] at hx3
                exact ⟨hx1, hx2, hx3.2⟩
            · refine List.Pairwise.cons ?_ ih2
              intro b hb
              obtain ⟨-, -, hb3⟩ := ih1 b hb
              simp only [pyMem, List.any_cons, Bool.or_eq_false_iff] at hb3
              exact hb3.1
      · rw [if_neg hh] at h
        exact absurd h (by simp)
    · rw [if_neg ht] at h
      exact ih seen out h

theorem removeDupsGo_fixed (out : List PyDict) (seen : List PyVal)
    (h1 : ∀ j ∈ out, truthy (jobId j) = true ∧ hashable (jobId j) = true ∧
      pyMem (jobId j) seen = false)
    (h2 : List.Pairwise (fun a b => pyBeq (jobId b) (jobId a) = false) out) :
    removeDupsGo seen out = Except.ok out := by
  induction out generalizing seen with
  | nil => rfl
  | cons j rest ih =>
    obtain ⟨ht, hh, hm⟩ := h1 j (List.mem_cons_self _ _)
    obtain ⟨hhead, htail⟩ := List.pairwise_cons.mp h2
    simp only [removeDupsGo, ht, if_true, hh, hm, Bool.false_eq_true, if_false]
    have hrec : removeDupsGo (jobId j :: seen) rest = Except.ok rest := by
      refine ih (jobId j :: seen) (fun x hx => ?_) htail
      obtain ⟨hx1, hx2, hx3⟩ := h1 x (List.mem_cons_of_mem _ hx)
      refine ⟨hx1, hx2, ?_⟩
      simp only [pyMem, List.any_cons, Bool.or_eq_false_iff]
      exact ⟨hhead x hx, hx3⟩
    rw [hrec]
    rfl

theorem removeDupsGo_subset (jobs : List PyDict) (seen : List PyVal)
    (out : List PyDict) (h : removeDupsGo seen jobs = Except.ok out) :
    ∀ j ∈ out, j ∈ jobs := by
  induction jobs generalizing seen out with
  | nil =>
    simp only [removeDupsGo, Except.ok.injEq] at h
    subst h
    simp
  | cons j rest ih =>
    simp only [removeDupsGo] at h
    by_cases ht : truthy (jobId j)
    · rw [if_pos ht] at h
      by_cases hh : hashable (jobId j)
      · rw [if_pos hh] at h
        by_cases hm : pyMem (jobId j) seen
        · rw [if_pos hm] at h
          exact fun x hx => List.mem_cons_of_mem _ (ih seen out h x hx)
        · rw [if_neg hm] at h
          cases hrec : removeDupsGo (jobId j :: seen) rest with
          | error e => rw [hrec] at h; exact absurd h (by simp [Except.map])
          | ok out' =>
            rw [hrec] at h
            simp only [Except.map, Except.ok.injEq] at h
            subst h
            intro x hx
            rcases List.mem_cons.mp hx with rfl | hx
            · exact List.mem_cons_self _ _
            · exact List.mem_cons_of_mem _ (ih (jobId j :: seen) out' hrec x hx)
      · rw [if_neg hh] at h
        exact absurd h (by simp)
    · rw [if_neg ht] at h
      exact fun x hx => List.mem_cons_of_mem _ (ih seen out h x hx)

/-- C10: deduplication is idempotent — re-running `remove_duplicates` on its
own output returns that output unchanged — and every output has pairwise
non-equal, truthy ids; when the input ids are typed per the data model
(absent, `None` or string), every surviving id is a non-empty string. -/
theorem remove_duplicates_idempotent (jobs out : List PyDict)
    (h : remove_duplicates jobs = Except.ok out) :
    remove_duplicates out = Except.ok out ∧
    List.Pairwise (fun a b => pyBeq (jobId a) (jobId b) = false) out ∧
    (∀ j ∈ out, truthy (jobId j) = true) ∧
    ((∀ j ∈ jobs, idOkB j = true) →
      ∀ j ∈ out, ∃ s : PyStr, jobId j = PyVal.str s ∧ s ≠ []) := by
  obtain ⟨h1, h2⟩ := removeDupsGo_sound jobs [] out h
  refine ⟨removeDupsGo_fixed out [] (fun j hj =>
      ⟨(h1 j hj).1, (h1 j hj).2.1, rfl⟩) h2, ?_, ?_, ?_⟩
  · exact h2.imp (fun hab => by rw [pyBeq_symm]; exact hab)
  · exact fun j hj => (h1 j hj).1
  · intro hids j hj
    have hmem : j ∈ jobs := removeDupsGo_subset jobs [] out h j hj
    have hok := hids j hmem
    have htr := (h1 j hj).1
    cases hjv : jobId j with
    | str s =>
      refine ⟨s, rfl, ?_⟩
      rw [hjv] at htr
      simpa [truthy, List.isEmpty_iff] using htr
    | none => rw [hjv] at htr; simp [truthy] at htr
    | int n => simp [idOkB, hjv] at hok
    | dict d => simp [idOkB, hjv] at hok
    | list l => simp [idOkB, hjv] at hok

/-- Example batch for idempotence: two distinct ids with a duplicate. -/
def exJobsC10 : List PyDict :=
  [[(pystr "id", PyVal.str (pystr "x"))],
   [(pystr "id", PyVal.str (pystr "y"))],
   [(pystr "id", PyVal.str (pystr "x"))]]

/-- C10 witness: on the example batch deduplication succeeds and its output is
a fixed point with distinct truthy ids. -/
theorem remove_duplicates_idempotent_witness :
    remove_duplicates
        [[(pystr "id", PyVal.str (pystr "x"))],
         [(pystr "id", PyVal.str (pystr "y"))]] =
      Except.ok
        [[(pystr "id", PyVal.str (pystr "x"))],
         [(pystr "id", PyVal.str (pystr "y"))]] :=
  (remove_duplicates_idempotent exJobsC10
    [[(pystr "id", PyVal.str (pystr "x"))],
     [(pystr "id", PyVal.str (pystr "y"))]] (by rfl)).1

/-- The fixed skill vocabulary of `etl.extract_skills`, in source order.  The
source iterates a Python set, whose iteration order is unspecified; the
claims are therefore settled at the level of membership in the result. -/
def all_skills : List PyStr :=
  [pystr "python", pystr "sql", pystr "r", pystr "java", pystr "javascript",
   pystr "scala", pystr "c++",
   pystr "aws", pystr "azure", pystr "gcp", pystr "google cloud", pystr "cloud",
   pystr "docker", pystr "kubernetes", pystr "jenkins", pystr "ci/cd",
   pystr "git", pystr "github",
   pystr "spark", pystr "hadoop", pystr "kafka", pystr "airflow",
   pystr "databricks",
   pystr "tableau", pystr "powerbi", pystr "power bi", pystr "looker",
   pystr "qlik",
   pystr "excel", pystr "pandas", pystr "numpy", pystr "scipy",
   pystr "matplotlib", pystr "seaborn",
   pystr "tensorflow", pystr "pytorch", pystr "keras", pystr "scikit-learn",
   pystr "sklearn",
   pystr "machine learning", pystr "deep learning", pystr "nlp",
   pystr "computer vision", pystr "ai",
   pystr "fastapi", pystr "flask", pystr "django", pystr "streamlit",
   pystr "postgresql", pystr "mysql", pystr "mongodb", pystr "redis",
   pystr "elasticsearch",
   pystr "api", pystr "rest", pystr "etl", pystr "data pipeline",
   pystr "data warehouse"]

/-- Python `needle in hay` on strings: `needle` occurs contiguously in
`hay`. -/
def pyContains (hay needle : PyStr) : Bool :=
  match hay with
  | [] => needle.isEmpty
  | _ :: rest => needle.isPrefixOf hay || pyContains rest needle

/-- `etl.extract_skills`: case-fold `f"{description} {title}"` and keep every
vocabulary term occurring in it as a substring (`skill in combined_text`). -/
def extract_skills (description title : PyStr) : List PyStr :=
  let combined_text := pyLower (description ++ pystr " " ++ title)
  all_skills.filter (fun skill => pyContains combined_text skill)

theorem pyLowerChar_pyUpperChar (c : Nat) :
    pyLowerChar (pyUpperChar c) = pyLowerChar c := by
  simp only [pyLowerChar, pyUpperChar]
  split_ifs <;> omega

theorem pyLower_pyUpper (s : PyStr) : pyLower (pyUpper s) = pyLower s := by
  induction s with
  | nil => rfl
  | cons c cs ih =>
    simp only [pyLower, pyUpper, List.map_cons] at ih ⊢
    rw [ih, pyLowerChar_pyUpperChar]

/-- C6: the extractor returns exactly the vocabulary terms occurring as
substrings of the case-folded concatenation `description ++ " " ++ title`
(pure containment, so a term inside a longer unrelated word counts), and it
is case-insensitive in its inputs. -/
theorem extract_skills_correct (description title sk : PyStr) :
    (sk ∈ extract_skills description title ↔
      sk ∈ all_skills ∧
        pyContains (pyLower (description ++ pystr " " ++ title)) sk = true) ∧
    extract_skills (pyUpper description) (pyUpper title) =
      extract_skills description title := by
  constructor
  · simp [extract_skills, List.mem_filter]
  · have h1 : pyUpper description ++ pystr " " ++ pyUpper title =
        pyUpper (description ++ pystr " " ++ title) := by
      simp only [pyUpper, List.map_append]
      rfl
    simp only [extract_skills, h1, pyLower_pyUpper]

/-- C6 witness: `"java"` is reported for a description containing only the
longer word `"JavaScript"` — substring containment with no word boundary,
case-insensitively. -/
theorem extract_skills_correct_witness :
    pystr "java" ∈ extract_skills (pystr "We use JavaScript") (pystr "Dev") :=
  (extract_skills_correct (pystr "We use JavaScript") (pystr "Dev")
    (pystr "java")).1.mpr ⟨by decide, by decide⟩

/-- Whitespace code points of the regex class `\s` (ASCII fragment). -/
def isSpaceCh (c : Nat) : Bool :=
  decide (c = 32 ∨ c = 9 ∨ c = 10 ∨ c = 13 ∨ c = 12 ∨ c = 11)

/-- Word code points of the regex class `\w` (ASCII fragment): letters,
digits and underscore. -/
def isWordCh (c : Nat) : Bool :=
  decide ((48 ≤ c ∧ c ≤ 57) ∨ (65 ≤ c ∧ c ≤ 90) ∨ (97 ≤ c ∧ c ≤ 122) ∨ c = 95)

/-- Scan for the next `>` (code point 62); everything before it matches
`[^>]`.  Returns the remainder after the `>`, if one exists. -/
def skipToGt : PyStr → Option PyStr
  | [] => Option.none
  | c :: rest => if c = 62 then some rest else skipToGt rest

/-- After a `<`, consume `[^>]+>`: at least one non-`>` code point, then the
closing `>`; `none` when the tag pattern cannot match at this position. -/
def dropTag : PyStr → Option PyStr
  | [] => Option.none
  | c :: rest => if c = 62 then Option.none else skipToGt rest

theorem skipToGt_length (s t : PyStr) (h : skipToGt s = some t) :
    t.length < s.length := by
  induction s with
  | nil => simp [skipToGt] at h
  | cons c rest ih =>
    simp only [skipToGt] at h
    split at h
    · cases h
      simp
    · have := ih h
      simp
      omega

theorem dropTag_length (s t : PyStr) (h : dropTag s = some t) :
    t.length < s.length := by
  cases s with
  | nil => simp [dropTag] at h
  | cons c rest =>
    simp only [dropTag] at h
    split at h
    · cases h
    · have := skipToGt_length rest t h
      simp
      omega

/-- `re.sub(r'<[^>]+>', '', text)`: delete each leftmost, non-overlapping
match of `<`, one or more non-`>` code points, `>`; a `<` with no such match
is kept and scanning resumes after it. -/
def stripTags (s : PyStr) : PyStr :=
  match s with
  | [] => []
  | c :: rest =>
    if c = 60 then
      match h : dropTag rest with
      | some rest' => stripTags rest'
      | Option.none => c :: stripTags rest
    else c :: stripTags rest
termination_by s.length
decreasing_by
  · have := dropTag_length rest rest' h
    simp
    omega
  · simp
  · simp

/-- `re.sub(r'\s+', ' ', text)`: each maximal whitespace run becomes one
space; `prevSpace` records being inside a run already replaced. -/
def collapseWsAux (prevSpace : Bool) : PyStr → PyStr
  | [] => []
  | c :: rest =>
    if isSpaceCh c then
      if prevSpace then collapseWsAux true rest
      else 32 :: collapseWsAux true rest
    else c :: collapseWsAux false rest

/-- `re.sub(r'\s+', ' ', text)`. -/
def collapseWs (s : PyStr) : PyStr := collapseWsAux false s

/-- `re.sub(r'[^\w\s.,!?-]', '', text)`: keep word characters, whitespace
and `. , ! ? -`. -/
def keepAllowed (s : PyStr) : PyStr :=
  s.filter (fun c => isWordCh c || isSpaceCh c ||
    decide (c = 46 ∨ c = 44 ∨ c = 33 ∨ c = 63 ∨ c = 45))

/-- `str.strip()`: remove leading and trailing whitespace. -/
def pyStrip (s : PyStr) : PyStr :=
  ((s.dropWhile isSpaceCh).reverse.dropWhile isSpaceCh).reverse

/-- The pure body of `etl.clean_html` on a (truthy) string: strip tags,
collapse whitespace, drop disallowed characters, strip the ends. -/
def clean_html_str (s : PyStr) : PyStr :=
  pyStrip (keepAllowed (collapseWs (stripTags s)))

/-- `etl.clean_html`: falsy input short-circuits to `""`; `re.sub` then
requires a string operand, so a truthy non-string raises `TypeError`. -/
def clean_html (text : PyVal) : Except PyErr PyStr :=
  if truthy text then
    match text with
    | PyVal.str s => Except.ok (clean_html_str s)
    | _ => Except.error PyErr.typeError
  else Except.ok []

/-- Decimal rendering of a Python int, `str(n)`. -/
def intStr (n : Int) : PyStr :=
  match n with
  | Int.ofNat m => (Nat.toDigits 10 m).map Char.toNat
  | Int.negSucc m => 45 :: (Nat.toDigits 10 (m + 1)).map Char.toNat

/-- Separator interleaving used by Python container reprs. -/
def joinSep (sep : PyStr) : List PyStr → PyStr
  | [] => []
  | [x] => x
  | x :: xs => x ++ sep ++ joinSep sep xs

mutual
/-- Python `repr` (ASCII model): `None`, single-quoted strings, decimal
ints, `[a, b]` lists, `\x7b'k': v\x7d` dicts.  This codebase reaches it only
through `str()` of non-string values (f-strings, the database write path). -/
def pyRepr : PyVal → PyStr
  | PyVal.none => pystr "None"
  | PyVal.str s => 39 :: s ++ [39]
  | PyVal.int n => intStr n
  | PyVal.list xs => 91 :: joinSep (pystr ", ") (pyReprList xs) ++ [93]
  | PyVal.dict es => 123 :: joinSep (pystr ", ") (pyReprEntries es) ++ [125]

def pyReprList : List PyVal → List PyStr
  | [] => []
  | v :: vs => pyRepr v :: pyReprList vs

def pyReprEntries : List (PyStr × PyVal) → List PyStr
  | [] => []
  | (k, v) :: es =>
    (pyRepr (PyVal.str k) ++ pystr ": " ++ pyRepr v) :: pyReprEntries es
end

/-- Python `str()`: identity on strings, `repr` on the other values. -/
def pyStrOf : PyVal → PyStr
  | PyVal.str s => s
  | v => pyRepr v

/-- `etl.clean_location`: nested dicts yield their display name (default
`'Unknown'`), strings pass through, anything else becomes `'Unknown'`. -/
def clean_location (location_data : PyVal) : PyVal :=
  match location_data with
  | PyVal.dict d =>
    dictGetD d (pystr "display_name") (PyVal.str (pystr "Unknown"))
  | PyVal.str s => PyVal.str s
  | _ => PyVal.str (pystr "Unknown")

/-- `etl.clean_company`: same resolution as `clean_location`. -/
def clean_company (company_data : PyVal) : PyVal :=
  match company_data with
  | PyVal.dict d =>
    dictGetD d (pystr "display_name") (PyVal.str (pystr "Unknown"))
  | PyVal.str s => PyVal.str s
  | _ => PyVal.str (pystr "Unknown")

/-- `if not x: x = 0` in `standardize_salary`: falsy operands become 0. -/
def falsyToZero (v : PyVal) : PyVal :=
  if truthy v then v else PyVal.int 0

/-- `etl.standardize_salary` on loosely-typed operands.  After the falsy→0
normalization both operands are ints in every non-raising run: a remaining
truthy non-int operand always raises `TypeError` at one of
`salary_min > salary_max`, `salary_max > 0`, the sum, or `// 2` (Python
orders and concatenates same-typed `str`/`list` pairs, but their sum then
meets `// 2`, which raises). -/
def standardize_salary_dyn (smin smax : PyVal) : Except PyErr SalaryData :=
  match falsyToZero smin, falsyToZero smax with
  | PyVal.int a, PyVal.int b => Except.ok (standardize_salary (some a) (some b))
  | _, _ => Except.error PyErr.typeError

/-- The canonical record built by `etl.transform_job`. -/
structure CleanJob where
  id : PyVal
  title : PyVal
  company : PyVal
  location : PyVal
  salary_min : Int
  salary_max : Int
  salary_avg : Int
  description : PyStr
  skills : List PyStr
  skills_count : Nat
  original_url : PyVal

/-- `etl.transform_job`: extract the raw fields with their Python defaults,
clean the description, extract skills from
`f"{clean_desc} {raw_title}"`, resolve company/location, standardize the
salary, and assemble the canonical record. -/
def transform_job (job : PyDict) : Except PyErr CleanJob := do
  let raw_description := dictGetD job (pystr "description") (PyVal.str [])
  let raw_title := dictGetD job (pystr "title") (PyVal.str [])
  let raw_location := dictGetD job (pystr "location") (PyVal.dict [])
  let raw_company := dictGetD job (pystr "company") (PyVal.dict [])
  let salary_min := dictGetD job (pystr "salary_min") PyVal.none
  let salary_max := dictGetD job (pystr "salary_max") PyVal.none
  let clean_desc ← clean_html raw_description
  let skills := extract_skills clean_desc (pyStrOf raw_title)
  let location := clean_location raw_location
  let company := clean_company raw_company
  let salary_data ← standardize_salary_dyn salary_min salary_max
  Except.ok
    { id := dictGetD job (pystr "id") PyVal.none,
      title := raw_title,
      company := company,
      location := location,
      salary_min := salary_data.salary_min,
      salary_max := salary_data.salary_max,
      salary_avg := salary_data.salary_avg,
      description := clean_desc,
      skills := skills,
      skills_count := skills.length,
      original_url := dictGetD job (pystr "redirect_url") (PyVal.str []) }

/-- C9 counterexample: a record whose `description` is the integer `1` makes
`clean_html` hand an int to `re.sub`, raising `TypeError` — the normalizer
does not degrade this input to a default. -/
theorem transform_job_raises :
    transform_job [(pystr "description", PyVal.int 1)] =
      Except.error PyErr.typeError := rfl

theorem clean_html_ok (v : PyVal)
    (h : (∃ s, v = PyVal.str s) ∨ truthy v = false) :
    ∃ out, clean_html v = Except.ok out := by
  rcases h with ⟨s, rfl⟩ | h
  · by_cases ht : truthy (PyVal.str s) <;> simp [clean_html, ht]
  · simp [clean_html, h]

theorem falsyToZero_int (v : PyVal)
    (h : (∃ n : Int, v = PyVal.int n) ∨ truthy v = false) :
    ∃ m : Int, falsyToZero v = PyVal.int m := by
  rcases h with ⟨n, rfl⟩ | h
  · by_cases ht : truthy (PyVal.int n) <;> simp [falsyToZero, ht]
  · simp [falsyToZero, h]

/-- C9 (amended): the normalizer is total — it returns a canonical record,
degrading malformed shapes to safe defaults — for every record whose
`description` is a string or falsy and whose salary fields are ints or
falsy/absent (all other fields may have any shape or type); a truthy
non-string description or truthy non-int salary value instead raises a
per-record `TypeError`, caught only at the batch level. -/
theorem transform_job_total (job : PyDict)
    (hdesc : (∃ s, dictGetD job (pystr "description") (PyVal.str []) =
        PyVal.str s) ∨
      truthy (dictGetD job (pystr "description") (PyVal.str [])) = false)
    (hmin : (∃ n : Int, dictGetD job (pystr "salary_min") PyVal.none =
        PyVal.int n) ∨
      truthy (dictGetD job (pystr "salary_min") PyVal.none) = false)
    (hmax : (∃ n : Int, dictGetD job (pystr "salary_max") PyVal.none =
        PyVal.int n) ∨
      truthy (dictGetD job (pystr "salary_max") PyVal.none) = false) :
    (transform_job job).isOk = true := by
  obtain ⟨d, hd⟩ := clean_html_ok _ hdesc
  obtain ⟨a, ha⟩ := falsyToZero_int _ hmin
  obtain ⟨b, hb⟩ := falsyToZero_int _ hmax
  simp only [transform_job, bind, Except.bind, hd, standardize_salary_dyn,
    ha, hb, Except.isOk, Except.toBool]

/-- C9 witness: a thoroughly malformed but type-conforming record — int id,
dict title, int location, list company, absent salaries — normalizes
without error. -/
theorem transform_job_total_witness :
    (transform_job
        [(pystr "id", PyVal.int 7),
         (pystr "title", PyVal.dict [(pystr "x", PyVal.none)]),
         (pystr "location", PyVal.int 3),
         (pystr "company", PyVal.list [PyVal.int 1]),
         (pystr "description", PyVal.str (pystr "<p>Use Python!</p>"))]).isOk =
      true :=
  transform_job_total _ (Or.inl ⟨pystr "<p>Use Python!</p>", by rfl⟩)
    (Or.inr (by rfl)) (Or.inr (by rfl))

/-- The transform loop of `etl.process_jobs`: a record failing
`transform_job` is skipped and the loop continues. -/
def transformLoop : List PyDict → List CleanJob
  | [] => []
  | j :: rest =>
    match transform_job j with
    | Except.ok c => c :: transformLoop rest
    | Except.error _ => transformLoop rest

/-- `etl.process_jobs`: dedupe, then transform each survivor inside
`try/except`.  Only `transform_job` runs under the `try`, so a failure
inside `remove_duplicates` propagates out of the batch. -/
def process_jobs (jobs : List PyDict) : Except PyErr (List CleanJob) := do
  let unique_jobs ← remove_duplicates jobs
  Except.ok (transformLoop unique_jobs)

/-- C8 counterexample: a single record whose id is a dict (truthy but
unhashable) makes the deduplication pass itself raise, aborting the whole
batch — this per-record failure is not caught. -/
theorem process_jobs_aborts :
    process_jobs [[(pystr "id", PyVal.dict [(pystr "a", PyVal.int 1)])]] =
      Except.error PyErr.typeError := rfl

/-- C8 (amended): whenever deduplication succeeds (every truthy id
hashable), the pipeline output is exactly the successful transforms of the
deduplicated survivors, in order — a per-record transform failure is skipped
and never aborts the batch; only an unhashable id aborts it, inside
deduplication itself. -/
theorem process_jobs_skips (jobs unique_jobs : List PyDict)
    (h : remove_duplicates jobs = Except.ok unique_jobs) :
    process_jobs jobs =
      Except.ok (unique_jobs.filterMap
        (fun j => (transform_job j).toOption)) := by
  have hl : ∀ l : List PyDict,
      transformLoop l = l.filterMap (fun j => (transform_job j).toOption) := by
    intro l
    induction l with
    | nil => rfl
    | cons j rest ih =>
      simp only [transformLoop, List.filterMap_cons]
      cases transform_job j <;> simp [Except.toOption, ih]
  simp only [process_jobs, bind, Except.bind, h, hl]

/-- Example batch: duplicate ids, one record with a malformed (int)
description that the transform skips. -/
def exJobsC8 : List PyDict :=
  [[(pystr "id", PyVal.str (pystr "a")),
    (pystr "description", PyVal.str (pystr "uses sql"))],
   [(pystr "id", PyVal.str (pystr "a"))],
   [(pystr "id", PyVal.str (pystr "b")),
    (pystr "description", PyVal.int 3)]]

/-- C8 witness: on the example batch the duplicate is dropped, the malformed
record is skipped by the transform loop, and the batch still succeeds. -/
theorem process_jobs_skips_witness :
    process_jobs exJobsC8 =
      Except.ok
        (([[(pystr "id", PyVal.str (pystr "a")),
            (pystr "description", PyVal.str (pystr "uses sql"))],
           [(pystr "id", PyVal.str (pystr "b")),
            (pystr "description", PyVal.int 3)]] : List PyDict).filterMap
          (fun j => (transform_job j).toOption)) :=
  process_jobs_skips exJobsC8 _ (by rfl)

/-- A stored row of the `jobs` table, with the column values
`database.save_jobs_to_db` binds. -/
structure Row where
  id : PyStr
  title : PyStr
  company : PyStr
  location : PyStr
  salary_min : Int
  salary_max : Int
  salary_avg : Int
  description : PyStr
  skills : PyStr
  skills_count : Nat
  original_url : PyStr
deriving DecidableEq, Repr

/-- The parameter tuple `database.save_jobs_to_db` binds for one canonical
record: `str()` of id/title/company/location/description/original_url, the
salary ints as-is, and the skills list joined with `','`. -/
def rowOf (job : CleanJob) : Row :=
  { id := pyStrOf job.id,
    title := pyStrOf job.title,
    company := pyStrOf job.company,
    location := pyStrOf job.location,
    salary_min := job.salary_min,
    salary_max := job.salary_max,
    salary_avg := job.salary_avg,
    description := job.description,
    skills := joinSep (pystr ",") job.skills,
    skills_count := job.skills_count,
    original_url := pyStrOf job.original_url }

/-- `database.save_jobs_to_db` against an in-memory relational table: each
record is inserted with `ON CONFLICT (id) DO NOTHING`, so a row whose id is
already present is silently skipped (first write wins); `saved_count` counts
attempted rows either way. -/
def save_jobs_to_db (table : List Row) (jobs : List CleanJob) :
    List Row × Nat :=
  jobs.foldl
    (fun acc job =>
      let r := rowOf job
      if acc.1.any (fun row => decide (row.id = r.id)) then (acc.1, acc.2 + 1)
      else (acc.1 ++ [r], acc.2 + 1))
    (table, 0)

/-- SQL `col ILIKE '%' || kw || '%'`: case-insensitive containment. -/
def ilike (col kw : PyStr) : Bool :=
  pyContains (pyLower col) (pyLower kw)

/-- The WHERE clause `database.get_jobs_from_db` builds: a truthy keyword
must match title or description, a truthy location must match location. -/
def rowMatches (keyword location : Option PyStr) (r : Row) : Bool :=
  (match keyword with
   | some k =>
     if k.isEmpty then true else (ilike r.title k || ilike r.description k)
   | Option.none => true) &&
  (match location with
   | some l => if l.isEmpty then true else ilike r.location l
   | Option.none => true)

/-- `database.get_jobs_from_db`: filter by the optional keyword/location
filters and truncate at `LIMIT limit`, in store order (insertion order). -/
def get_jobs_from_db (table : List Row) (keyword location : Option PyStr)
    (limit : Nat) : List Row :=
  (table.filter (rowMatches keyword location)).take limit

theorem isPrefixOf_self (l : PyStr) : l.isPrefixOf l = true := by
  induction l with
  | nil => rfl
  | cons c rest ih => simp [List.isPrefixOf, ih]

theorem pyContains_self (s : PyStr) : pyContains s s = true := by
  cases s with
  | nil => rfl
  | cons c rest => simp [pyContains, isPrefixOf_self]

/-- C2: from an empty store, upserting a canonical record and then querying
with its title as the keyword returns exactly the written row, all fields as
written; and a second write carrying the same id leaves the stored row
unchanged (the upsert is a no-op on an existing id — first write wins). -/
theorem upsert_query_roundtrip (j j2 : CleanJob)
    (hid : (rowOf j2).id = (rowOf j).id) :
    (save_jobs_to_db [] [j]).1 = [rowOf j] ∧
    get_jobs_from_db (save_jobs_to_db [] [j]).1
        (some (pyStrOf j.title)) Option.none 100 = [rowOf j] ∧
    (save_jobs_to_db (save_jobs_to_db [] [j]).1 [j2]).1 =
      (save_jobs_to_db [] [j]).1 := by
  have h1 : (save_jobs_to_db [] [j]).1 = [rowOf j] := by
    simp [save_jobs_to_db]
  refine ⟨h1, ?_, ?_⟩
  · rw [h1]
    have hmatch :
        rowMatches (some (pyStrOf j.title)) Option.none (rowOf j) = true := by
      by_cases he : (pyStrOf j.title).isEmpty
      · simp [rowMatches, he]
      · simp [rowMatches, rowOf, he, ilike, pyContains_self]
    simp [get_jobs_from_db, hmatch]
  · rw [h1]
    simp [save_jobs_to_db, hid]

/-- The spec's end-to-end example record, as a canonical record. -/
def exJobC2 : CleanJob :=
  { id := PyVal.str (pystr "1"),
    title := PyVal.str (pystr "Data Scientist"),
    company := PyVal.str (pystr "Acme"),
    location := PyVal.str (pystr "NY"),
    salary_min := 90000, salary_max := 110000, salary_avg := 100000,
    description := pystr "Use Python and SQL",
    skills := [pystr "python", pystr "sql"], skills_count := 2,
    original_url := PyVal.str (pystr "http://a.example") }

/-- A different record carrying the same id as `exJobC2`. -/
def exJobC2' : CleanJob :=
  { id := PyVal.str (pystr "1"),
    title := PyVal.str (pystr "Intruder"),
    company := PyVal.str (pystr "Other"),
    location := PyVal.str (pystr "LA"),
    salary_min := 1, salary_max := 2, salary_avg := 1,
    description := pystr "overwrite attempt",
    skills := [], skills_count := 0,
    original_url := PyVal.str (pystr "") }

/-- C2 witness: the example record round-trips through upsert and keyword
query, and a conflicting second write leaves the store unchanged. -/
theorem upsert_query_roundtrip_witness :
    get_jobs_from_db (save_jobs_to_db [] [exJobC2]).1
        (some (pyStrOf exJobC2.title)) Option.none 100 = [rowOf exJobC2] ∧
    (save_jobs_to_db (save_jobs_to_db [] [exJobC2]).1 [exJobC2']).1 =
      (save_jobs_to_db [] [exJobC2]).1 :=
  ⟨(upsert_query_roundtrip exJobC2 exJobC2' (by rfl)).2.1,
   (upsert_query_roundtrip exJobC2 exJobC2' (by rfl)).2.2⟩

/-- The salary collection loop of `main.get_salary_stats`: append each
truthy `salary_min` and then each truthy `salary_max`, in row order. -/
def collectSalaries : List Row → List Int
  | [] => []
  | j :: rest =>
    (if j.salary_min ≠ 0 then [j.salary_min] else []) ++
    (if j.salary_max ≠ 0 then [j.salary_max] else []) ++
    collectSalaries rest

/-- The response of `main.get_salary_stats` (keyword/location echo
omitted). -/
structure SalaryStats where
  min_salary : Int
  max_salary : Int
  average_salary : Int
  median_salary : Int
  jobs_analyzed : Nat
deriving DecidableEq, Repr

/-- `main.get_salary_stats` over a retrieved row set: collect truthy salary
bounds; with none, answer the "No salary data available" message (`none`
here); otherwise sort ascending (Python `list.sort`; insertion sort computes
the same list on a total order) and report `min`, `max`, the floor-mean
`sum // count` and `salaries[count // 2]`. -/
def get_salary_stats (jobs : List Row) : Option SalaryStats :=
  let salaries := collectSalaries jobs
  if salaries.isEmpty then Option.none
  else
    let sorted := salaries.insertionSort (· ≤ ·)
    let count := salaries.length
    some
      { min_salary := match salaries with | [] => 0 | x :: xs => xs.foldl min x,
        max_salary := match salaries with | [] => 0 | x :: xs => xs.foldl max x,
        average_salary := Int.fdiv salaries.sum (count : Int),
        median_salary := sorted.getD (count / 2) 0,
        jobs_analyzed := jobs.length }

/-- C7: with at least one collected salary value, the reported median is the
element at index `count // 2` of the ascending sort of the collected
multiset — an element of the multiset (the upper-middle one for even
counts), never an averaged value. -/
theorem salary_stats_median (jobs : List Row) (stats : SalaryStats)
    (h : get_salary_stats jobs = some stats) :
    stats.median_salary =
      ((collectSalaries jobs).insertionSort (· ≤ ·)).getD
        ((collectSalaries jobs).length / 2) 0 ∧
    stats.median_salary ∈ collectSalaries jobs := by
  have hne : (collectSalaries jobs).isEmpty = false := by
    by_contra hc
    simp only [Bool.not_eq_false] at hc
    simp [get_salary_stats, hc] at h
  simp only [get_salary_stats, hne, Bool.false_eq_true, if_false,
    Option.some.injEq] at h
  subst h
  refine ⟨rfl, ?_⟩
  have hlen : (collectSalaries jobs).length ≠ 0 := by
    simpa [List.isEmpty_iff_length_eq_zero] using hne
  have hperm : ((collectSalaries jobs).insertionSort (· ≤ ·)).Perm
      (collectSalaries jobs) := List.perm_insertionSort _ _
  have hlt : (collectSalaries jobs).length / 2 <
      ((collectSalaries jobs).insertionSort (· ≤ ·)).length := by
    rw [hperm.length_eq]
    omega
  rw [List.getD_eq_getElem _ _ hlt]
  exact hperm.mem_iff.mp (List.getElem_mem hlt)

/-- A row with the given salary bounds (the other columns are immaterial to
the aggregation). -/
def salRow (mn mx : Int) : Row :=
  { id := [], title := [], company := [], location := [],
    salary_min := mn, salary_max := mx, salary_avg := 0,
    description := [], skills := [], skills_count := 0, original_url := [] }

/-- C7 witness: the collected multiset `[1, 2, 3, 4]` yields median `3`
(the upper-middle element, not the average `2.5`), and that median is an
element of the multiset. -/
theorem salary_stats_median_witness :
    get_salary_stats [salRow 1 2, salRow 3 4] =
      some { min_salary := 1, max_salary := 4, average_salary := 2,
             median_salary := 3, jobs_analyzed := 2 } ∧
    (3 : Int) ∈ collectSalaries [salRow 1 2, salRow 3 4] :=
  ⟨by rfl,
   (salary_stats_median [salRow 1 2, salRow 3 4]
     { min_salary := 1, max_salary := 4, average_salary := 2,
       median_salary := 3, jobs_analyzed := 2 } (by rfl)).2⟩

/-- The pickled artifact `predict.load_model` returns: the three fitted
label encoders (their `classes_` lists) and the regression model, opaque
here as a function from encoded features to a predicted salary. -/
structure Artifact where
  title_classes : List PyStr
  location_classes : List PyStr
  company_classes : List PyStr
  predictFn : Nat → Nat → Nat → Int

/-- Index of a label among the fitted classes, `none` when unseen. -/
def leIndex (classes : List PyStr) (x : PyStr) : Option Nat :=
  match classes with
  | [] => Option.none
  | c :: rest => if c = x then some 0 else (leIndex rest x).map (· + 1)

/-- `sklearn.LabelEncoder.transform` on one label: its index among the
fitted classes; an unseen label raises `ValueError`. -/
def leTransform (classes : List PyStr) (x : PyStr) : Except PyErr Nat :=
  match leIndex classes x with
  | some i => Except.ok i
  | Option.none => Except.error PyErr.valueError

/-- Result dict of `predict.predict_salary`: the prediction payload, or a
dict carrying an `"error"` key. -/
inductive PredResult where
  | payload (predicted_salary : Int) (title location company : PyStr)
  | err (msg : PyStr)
deriving DecidableEq, Repr

/-- Did the result dict carry an `"error"` key? -/
def PredResult.isErr : PredResult → Bool
  | PredResult.err _ => true
  | _ => false

/-- `predict.predict_salary`: encode the three inputs with the fitted
encoders, predict, and turn any exception into an `"error"` dict via the
enclosing `try/except`. -/
def predict_salary (art : Artifact) (title location company : PyStr) :
    PredResult :=
  match
    (do
      let t ← leTransform art.title_classes title
      let l ← leTransform art.location_classes location
      let c ← leTransform art.company_classes company
      Except.ok (art.predictFn t l c) : Except PyErr Int)
  with
  | Except.ok v => PredResult.payload v title location company
  | Except.error _ => PredResult.err (pystr "Prediction failed")

/-- A raised `fastapi.HTTPException`. -/
structure HTTPExc where
  status : Nat
  detail : PyStr

/-- The `try` body of `main.predict_job_salary`: call the predictor and
raise `HTTPException(status_code=400)` when the result carries an
`"error"` key, else return the payload. -/
def predict_handler_body (art : Artifact) (title location company : PyStr) :
    Except HTTPExc PredResult :=
  let result := predict_salary art title location company
  match result with
  | PredResult.err m => Except.error { status := 400, detail := m }
  | r => Except.ok r

/-- The whole `POST /ml/predict-salary` handler, as the status the client
observes: `except Exception` catches every exception raised in the `try`
body — including the `HTTPException(400)` above, because `HTTPException`
subclasses `Exception` and this handler (unlike `get_job_by_id`) has no
prior `except HTTPException: raise` arm — and re-raises
`HTTPException(500, f"Prediction failed: {e}")`. -/
def predict_job_salary (art : Artifact) (title location company : PyStr) :
    Nat × Option PredResult :=
  match predict_handler_body art title location company with
  | Except.ok r => (200, some r)
  | Except.error _ => (500, Option.none)

theorem leIndex_eq_none (classes : List PyStr) (x : PyStr)
    (h : x ∉ classes) : leIndex classes x = Option.none := by
  induction classes with
  | nil => rfl
  | cons c rest ih =>
    have hcx : ¬ c = x := fun hc => h (hc ▸ List.mem_cons_self _ _)
    have hrest : x ∉ rest := fun hr => h (List.mem_cons_of_mem _ hr)
    simp [leIndex, hcx, ih hrest]

/-- C3: a title unseen at training makes `predict_salary` return a typed
error dict, never a numeric prediction — but the endpoint then answers 500,
not the specified 400: the `HTTPException(400)` it raises for the error
result is caught by its own generic `except Exception` and re-raised as a
500 server error. -/
theorem predict_unknown_category (art : Artifact)
    (title location company : PyStr) (h : title ∉ art.title_classes) :
    (predict_salary art title location company).isErr = true ∧
    (predict_job_salary art title location company).1 = 500 := by
  have henc := leIndex_eq_none art.title_classes title h
  constructor
  · simp [predict_salary, bind, Except.bind, leTransform, henc,
      PredResult.isErr]
  · simp [predict_job_salary, predict_handler_body, predict_salary, bind,
      Except.bind, leTransform, henc]

/-- A concrete trained artifact: two known titles, one location, one
company. -/
def exArtifact : Artifact :=
  { title_classes := [pystr "Data Scientist", pystr "Data Engineer"],
    location_classes := [pystr "NY"],
    company_classes := [pystr "Acme"],
    predictFn := fun _ _ _ => 100000 }

/-- C3 witness: a never-seen title yields the error dict and an HTTP 500
from the endpoint. -/
theorem predict_unknown_category_witness :
    (predict_salary exArtifact (pystr "Quantum Basket Weaver") (pystr "NY")
      (pystr "Acme")).isErr = true ∧
    (predict_job_salary exArtifact (pystr "Quantum Basket Weaver")
      (pystr "NY") (pystr "Acme")).1 = 500 :=
  predict_unknown_category exArtifact _ _ _ (by decide)

end JobAnalyzer
